import Mathlib

/-!
Verification of the auto-refresh cache in `synccache/auto_refresh_cache.go`.

The cache couples a capacity-bounded, recency-evicting store with a
background sync cycle that re-evaluates every cached item through a
caller-supplied callback and applies an Unchanged/Update/Delete verdict,
with per-item retry bookkeeping.

The bounded store itself is the external `golang-lru` dependency, which is
not part of this repository's sources; it is modelled here from the spec's
Bounded Store contract (spec §3, §4.1).  Everything else is translated
directly from `auto_refresh_cache.go`.
-/

set_option autoImplicit false

namespace SyncCache

/-! ## The Bounded Store (modelled from the spec) -/

/-- Modelled from the spec: the Bounded Store (spec §3, §4.1), realised in the
repository by the external `golang-lru` package (not under the sources).
`entries` is an association list from identity to stored value, ordered from
least-recently-touched to most-recently-touched; `maxSize` is the fixed
capacity set at construction. -/
structure Lru (V : Type) : Type where
  maxSize : Nat
  entries : List (String × V)
deriving DecidableEq

/-- Lookup of a key in an association list (first match). -/
def lookupKey {V : Type} (k : String) : List (String × V) → Option V
  | [] => none
  | e :: rest => if e.1 = k then some e.2 else lookupKey k rest

/-- Remove every entry with the given key from an association list. -/
def removeKey {V : Type} (k : String) : List (String × V) → List (String × V)
  | [] => []
  | e :: rest => if e.1 = k then removeKey k rest else e :: removeKey k rest

/-- Overwrite the value stored under a key, in place (recency position kept). -/
def replaceKey {V : Type} (k : String) (v : V) : List (String × V) → List (String × V)
  | [] => []
  | e :: rest => if e.1 = k then (k, v) :: replaceKey k v rest else e :: replaceKey k v rest

namespace Lru

variable {V : Type}

/-- Modelled from the spec: `Peek(id)` — read access without affecting recency
(spec §4.1). -/
def peek (c : Lru V) (k : String) : Option V :=
  lookupKey k c.entries

/-- Modelled from the spec: `Get(id)` — read access that marks the entry as
recently used, moving it to the most-recently-touched end (spec §4.1). -/
def get (c : Lru V) (k : String) : Option V × Lru V :=
  match lookupKey k c.entries with
  | none => (none, c)
  | some v => (some v, { c with entries := removeKey k c.entries ++ [(k, v)] })

/-- Modelled from the spec: `Add(id, v)` — insert-or-overwrite; when at
capacity and the id is new, the least-recently-touched entry is evicted first
(spec §4.1).  An overwrite replaces the value in place; the spec attaches a
recency touch only to the non-peeking read accessor (spec §3).  Returns the
evicted identity, if any, for the optional eviction hook. -/
def add (c : Lru V) (k : String) (v : V) : Lru V × Option String :=
  match lookupKey k c.entries with
  | some _ => ({ c with entries := replaceKey k v c.entries }, none)
  | none =>
    if c.maxSize ≤ c.entries.length then
      match c.entries with
      | [] => ({ c with entries := [(k, v)] }, none)
      | e :: rest => ({ c with entries := rest ++ [(k, v)] }, some e.1)
    else ({ c with entries := c.entries ++ [(k, v)] }, none)

/-- Modelled from the spec: `Remove(id)` — deletes the entry if present
(spec §4.1). -/
def remove (c : Lru V) (k : String) : Lru V :=
  { c with entries := removeKey k c.entries }

/-- Modelled from the spec: `Keys()` — a point-in-time copy of all current
identities, least-recently-touched first (spec §4.1). -/
def keys (c : Lru V) : List String :=
  c.entries.map Prod.fst

/-- The store's recency order: identities from least- to most-recently
touched. -/
def order (c : Lru V) : List String :=
  c.entries.map Prod.fst

end Lru

/-! ## The cache (translated from `auto_refresh_cache.go`) -/

/-- `CacheSyncAction` (source lines 38–48): the verdict returned by the sync
callback. -/
inductive CacheSyncAction : Type where
  | Unchanged
  | Update
  | Delete
deriving DecidableEq

/-- `cacheItemWrapper` (source lines 57–61): the stored record — item,
consecutive-failure count, last error.  Go zero values give
`retryCount = 0`, `syncError = none` when fields are omitted. -/
structure cacheItemWrapper (Item Err : Type) : Type where
  item : Item
  retryCount : Int := 0
  syncError : Option Err := none
deriving DecidableEq

/-- The error channel of `Get`/`GetOrCreate`: either the sentinel
`ErrNotFound` (source line 17) or a recorded callback error surfaced from the
wrapper's `SyncError` field. -/
inductive CacheError (Err : Type) : Type where
  | notFound
  | syncErr (e : Err)
deriving DecidableEq

/-- `autoRefreshCache` (source lines 75–82).  The `syncRateLimiter` field is
stored but never used by the core logic, and `scope` only installs a metrics
counter incremented on eviction (purely observational); both are omitted from
the state.  `resyncPeriod` drives the scheduler, which is not modelled. -/
structure autoRefreshCache (Item Err : Type) : Type where
  syncCb : Item → Item × CacheSyncAction × Option Err
  lruMap : Lru (cacheItemWrapper Item Err)
  resyncPeriod : Nat
  maxRetries : Int

/-- `Get` (source lines 88–95): on a hit, return the stored item together
with the wrapper's recorded `SyncError` (possibly none); on a miss, return no
item and `ErrNotFound`.  The underlying `lruMap.Get` marks the entry as
recently used, so the (possibly reordered) cache is returned as well. -/
def Get {Item Err : Type} (w : autoRefreshCache Item Err) (id : String) :
    (Option Item × Option (CacheError Err)) × autoRefreshCache Item Err :=
  match w.lruMap.get id with
  | (some wrapper, m) =>
    ((some wrapper.item, wrapper.syncError.map CacheError.syncErr), { w with lruMap := m })
  | (none, m) => ((none, some CacheError.notFound), { w with lruMap := m })

/-- `GetOrCreate` (source lines 99–107): find-or-insert.  On a hit, return the
stored item and recorded error, discarding the argument; on a miss, insert a
fresh wrapper (zero values: `retryCount = 0`, `syncError = none`) and return
the argument with no error.  `ID` models the Go `CacheItem.ID()` method. -/
def GetOrCreate {Item Err : Type} (ID : Item → String) (w : autoRefreshCache Item Err)
    (item : Item) : (Item × Option (CacheError Err)) × autoRefreshCache Item Err :=
  match w.lruMap.get (ID item) with
  | (some wrapper, m) =>
    ((wrapper.item, wrapper.syncError.map CacheError.syncErr), { w with lruMap := m })
  | (none, _) =>
    ((item, none), { w with lruMap := (w.lruMap.add (ID item) { item := item }).1 })

/-- One step of the sync cycle: processing a single snapshotted identity
(source lines 122–151).  Peek the wrapper (skip if evicted meanwhile); skip if
its retry count exceeds `maxRetries`; otherwise invoke the callback and apply
its verdict: on error, re-add the same item with the retry count incremented
and the error recorded; on `Update`, re-add the new item with zero values; on
`Delete`, remove; on `Unchanged`, do nothing. -/
def syncOne {Item Err : Type} (syncCb : Item → Item × CacheSyncAction × Option Err)
    (maxRetries : Int) (m : Lru (cacheItemWrapper Item Err)) (k : String) :
    Lru (cacheItemWrapper Item Err) :=
  match m.peek k with
  | none => m
  | some wrapper =>
    if wrapper.retryCount > maxRetries then m
    else
      match syncCb wrapper.item with
      | (_, _, some err) =>
        (m.add k { item := wrapper.item, retryCount := wrapper.retryCount + 1,
                   syncError := some err }).1
      | (newItem, result, none) =>
        if result = CacheSyncAction.Update then (m.add k { item := newItem }).1
        else if result = CacheSyncAction.Delete then m.remove k
        else m

/-- `sync` (source lines 120–152): one cycle — snapshot the keys, then process
each snapshotted identity in order.  The cycle is a total function: callback
errors are recorded in the wrappers, never propagated out. -/
def sync {Item Err : Type} (w : autoRefreshCache Item Err) : autoRefreshCache Item Err :=
  { w with lruMap := (w.lruMap.keys).foldl (syncOne w.syncCb w.maxRetries) w.lruMap }

/-- The single possible construction error.  Modelled from the spec: the Store
constructor's "must provide a positive size" failure (spec §6). -/
inductive LruNewError : Type where
  | mustProvidePositiveSize
deriving DecidableEq

/-- Modelled from the spec: the Store constructor (`lru.NewWithEvict`, not
under the sources) fails exactly when the requested capacity is not positive
(spec §6: `maxSize` "must be positive or construction fails"). -/
def lruNewWithEvict (V : Type) (maxSize : Int) : Except LruNewError (Lru V) :=
  if maxSize ≤ 0 then Except.error LruNewError.mustProvidePositiveSize
  else Except.ok { maxSize := maxSize.toNat, entries := [] }

/-- `NewAutoRefreshCache` (source lines 154–178): build the store, surfacing
its error unmodified if it fails; no other validation is performed on any
argument.  The rate limiter and scope arguments are accepted and ignored by
the core logic (the scope only installs the observational eviction
counter). -/
def NewAutoRefreshCache {Item Err : Type} (syncCb : Item → Item × CacheSyncAction × Option Err)
    (_syncRateLimiter : Unit) (resyncPeriod : Nat) (maxSize maxRetries : Int)
    (_scope : Option Unit) : Except LruNewError (autoRefreshCache Item Err) :=
  match lruNewWithEvict (cacheItemWrapper Item Err) maxSize with
  | Except.error e => Except.error e
  | Except.ok m =>
    Except.ok { syncCb := syncCb, lruMap := m, resyncPeriod := resyncPeriod,
                maxRetries := maxRetries }

/-- Cache states reachable from a freshly constructed cache through
`GetOrCreate` calls and sync cycles (the callback and `maxRetries` are fixed
at construction, as in the source). -/
inductive Reach {Item Err : Type} (ID : Item → String) :
    autoRefreshCache Item Err → Prop where
  | init (syncCb : Item → Item × CacheSyncAction × Option Err) (sz rp : Nat) (mr : Int) :
      Reach ID { syncCb := syncCb, lruMap := { maxSize := sz, entries := [] },
                 resyncPeriod := rp, maxRetries := mr }
  | getOrCreate {c : autoRefreshCache Item Err} (item : Item) :
      Reach ID c → Reach ID (GetOrCreate ID c item).2
  | syncStep {c : autoRefreshCache Item Err} :
      Reach ID c → Reach ID (sync c)

/-! ## Predicates used by the invariants -/

/-- Every value stored in the store satisfies `P`. -/
def storeAll {V : Type} (P : V → Prop) (c : Lru V) : Prop :=
  ∀ p ∈ c.entries, P p.2

/-- The retry-count bound carried by every reachable store state. -/
def retryBound {Item Err : Type} (maxR : Int) (w : cacheItemWrapper Item Err) : Prop :=
  0 ≤ w.retryCount ∧ w.retryCount ≤ maxR + 1

/-! ## Nil-aware model of the wrapper (for the type-assertion analysis)

In Go the wrapper's embedded `CacheItem` is an interface value that can be
nil: `GetOrCreate` always stores a caller-supplied (dispatchable, hence
non-nil) item, but the sync cycle stores the callback's `newItem` unchecked
on an `Update` verdict.  The sync cycle then runs the type assertion
`wrapper.CacheItem.(CacheItem)` (source line 132), which panics on a nil
interface value.  Here the embedded item is `Option Item` (`none` = nil) and
a panic is modelled as `none` in the result. -/

/-- `cacheItemWrapper` with a possibly-nil embedded item. -/
structure cacheItemWrapperN (Item Err : Type) : Type where
  item : Option Item
  retryCount : Int := 0
  syncError : Option Err := none
deriving DecidableEq

/-- `GetOrCreate`'s store effect in the nil-aware model: a fresh insert
stores the caller's item, which is always non-nil (`some`). -/
def getOrCreateN {Item Err : Type} (ID : Item → String)
    (m : Lru (cacheItemWrapperN Item Err)) (item : Item) :
    Lru (cacheItemWrapperN Item Err) :=
  match m.get (ID item) with
  | (some _, m2) => m2
  | (none, _) => (m.add (ID item) { item := some item }).1

/-- One sync step in the nil-aware model; `none` models the panic of the
`CacheItem` type assertion on a nil stored item. -/
def syncOneN {Item Err : Type} (cb : Item → Option Item × CacheSyncAction × Option Err)
    (maxR : Int) (m : Lru (cacheItemWrapperN Item Err)) (k : String) :
    Option (Lru (cacheItemWrapperN Item Err)) :=
  match m.peek k with
  | none => some m
  | some wrapper =>
    if wrapper.retryCount > maxR then some m
    else
      match wrapper.item with
      | none => none
      | some cacheItem =>
        match cb cacheItem with
        | (_, _, some err) =>
          some (m.add k { item := some cacheItem, retryCount := wrapper.retryCount + 1,
                          syncError := some err }).1
        | (newItem, result, none) =>
          if result = CacheSyncAction.Update then some (m.add k { item := newItem }).1
          else if result = CacheSyncAction.Delete then some (m.remove k)
          else some m

/-- A full cycle in the nil-aware model: `none` when some step's type
assertion fails (the Go process would panic). -/
def syncN {Item Err : Type} (cb : Item → Option Item × CacheSyncAction × Option Err)
    (maxR : Int) (m : Lru (cacheItemWrapperN Item Err)) :
    Option (Lru (cacheItemWrapperN Item Err)) :=
  List.foldlM (syncOneN cb maxR) m m.keys

/-! ## Concrete fixtures used by the witnesses -/

/-- A callback that always fails with error `7`. -/
def cbErrW : Int → Int × CacheSyncAction × Option Int :=
  fun x => (x, CacheSyncAction.Unchanged, some 7)

/-- A callback that always returns an updated item. -/
def cbUpdW : Int → Int × CacheSyncAction × Option Int :=
  fun x => (x + 1, CacheSyncAction.Update, none)

/-- A callback that always reports the item unchanged. -/
def cbUnchW : Int → Int × CacheSyncAction × Option Int :=
  fun x => (x, CacheSyncAction.Unchanged, none)

/-- A constant identity function: every item lives in slot `"a"`. -/
def idW : Int → String := fun _ => "a"

/-- A wrapper holding item `5` with one recorded failure so far. -/
def wrapW : cacheItemWrapper Int Int := { item := 5, retryCount := 1, syncError := none }

/-- A two-slot store holding `wrapW` under `"a"`. -/
def storeW : Lru (cacheItemWrapper Int Int) := { maxSize := 2, entries := [("a", wrapW)] }

/-- A cache over `storeW` with `maxRetries = 3`. -/
def cacheW : autoRefreshCache Int Int :=
  { syncCb := cbErrW, lruMap := storeW, resyncPeriod := 0, maxRetries := 3 }

/-- A store holding a wrapper with three recorded failures under `"a"`. -/
def storeW4 : Lru (cacheItemWrapper Int Int) :=
  { maxSize := 2, entries := [("a", { item := 5, retryCount := 3, syncError := some 9 })] }

/-- A cache whose single entry is permanently stalled
(`retryCount = 4 > maxRetries = 3`). -/
def cacheW2s : autoRefreshCache Int Int :=
  { syncCb := cbErrW,
    lruMap := { maxSize := 2, entries := [("a", { item := 5, retryCount := 4, syncError := some 9 })] },
    resyncPeriod := 0, maxRetries := 3 }

/-- The freshly constructed cache used by the reachability witness
(`maxRetries = 0`, failing callback). -/
def cacheR0 : autoRefreshCache Int Int :=
  { syncCb := cbErrW, lruMap := { maxSize := 2, entries := [] }, resyncPeriod := 0,
    maxRetries := 0 }

/-- `cacheR0` after `GetOrCreate` of item `5`. -/
def cacheR1 : autoRefreshCache Int Int := (GetOrCreate idW cacheR0 5).2

/-- `cacheR1` after one sync cycle (the callback fails, so item `5` is now
permanently stalled: `retryCount = 1 = maxRetries + 1`). -/
def cacheR2 : autoRefreshCache Int Int := sync cacheR1

/-- A callback for the nil-aware model that returns a nil `newItem` with an
`Update` verdict. -/
def cbNilUpd : Int → Option Int × CacheSyncAction × Option Int :=
  fun _ => (none, CacheSyncAction.Update, none)

/-- A well-behaved callback for the nil-aware model: `Update` verdicts always
carry a non-nil item. -/
def cbGoodN : Int → Option Int × CacheSyncAction × Option Int :=
  fun x => (some (x + 1), CacheSyncAction.Update, none)

/-- The empty nil-aware store. -/
def storeN0 : Lru (cacheItemWrapperN Int Int) := { maxSize := 2, entries := [] }

/-- `storeN0` after inserting item `5` under `"a"`. -/
def storeN1 : Lru (cacheItemWrapperN Int Int) := getOrCreateN idW storeN0 5

/-! ## Association-list lemmas -/

section ListLemmas

variable {V : Type} {k k' : String} {v w : V} {l l₁ l₂ : List (String × V)} {e p : String × V}

theorem lookupKey_nil : lookupKey k ([] : List (String × V)) = none := rfl

theorem lookupKey_cons :
    lookupKey k (e :: l) = if e.1 = k then some e.2 else lookupKey k l := rfl

theorem lookupKey_append_left (h : lookupKey k l₁ = some v) :
    lookupKey k (l₁ ++ l₂) = some v := by
  induction l₁ with
  | nil => exact absurd h (by simp [lookupKey_nil])
  | cons e rest ih =>
    rw [List.cons_append, lookupKey_cons]
    rw [lookupKey_cons] at h
    by_cases he : e.1 = k
    · rw [if_pos he] at h ⊢; exact h
    · rw [if_neg he] at h ⊢; exact ih h

theorem lookupKey_append_right (h : lookupKey k l₁ = none) :
    lookupKey k (l₁ ++ l₂) = lookupKey k l₂ := by
  induction l₁ with
  | nil => simp
  | cons e rest ih =>
    rw [lookupKey_cons] at h
    by_cases he : e.1 = k
    · rw [if_pos he] at h; cases h
    · rw [if_neg he] at h
      rw [List.cons_append, lookupKey_cons, if_neg he]
      exact ih h

theorem lookupKey_replaceKey_same :
    lookupKey k (replaceKey k v l) = (lookupKey k l).map fun _ => v := by
  induction l with
  | nil => rfl
  | cons e rest ih =>
    rw [replaceKey]
    by_cases he : e.1 = k
    · rw [if_pos he, lookupKey_cons, lookupKey_cons, if_pos he]
      simp
    · rw [if_neg he, lookupKey_cons, lookupKey_cons, if_neg he, if_neg he]
      exact ih

theorem lookupKey_replaceKey_ne (h : k' ≠ k) :
    lookupKey k' (replaceKey k v l) = lookupKey k' l := by
  induction l with
  | nil => rfl
  | cons e rest ih =>
    rw [replaceKey]
    by_cases he : e.1 = k
    · rw [if_pos he, lookupKey_cons, lookupKey_cons]
      have hk : ¬(k = k') := fun hh => h hh.symm
      rw [if_neg hk, if_neg (he ▸ hk)]
      exact ih
    · rw [if_neg he, lookupKey_cons, lookupKey_cons]
      by_cases he' : e.1 = k'
      · rw [if_pos he', if_pos he']
      · rw [if_neg he', if_neg he']
        exact ih

theorem lookupKey_removeKey_same : lookupKey k (removeKey k l) = none := by
  induction l with
  | nil => rfl
  | cons e rest ih =>
    rw [removeKey]
    by_cases he : e.1 = k
    · rw [if_pos he]; exact ih
    · rw [if_neg he, lookupKey_cons, if_neg he]; exact ih

theorem lookupKey_removeKey_ne (h : k' ≠ k) :
    lookupKey k' (removeKey k l) = lookupKey k' l := by
  induction l with
  | nil => rfl
  | cons e rest ih =>
    rw [removeKey]
    by_cases he : e.1 = k
    · rw [if_pos he, lookupKey_cons]
      have hne : ¬(e.1 = k') := by rw [he]; exact fun hh => h hh.symm
      rw [if_neg hne]
      exact ih
    · rw [if_neg he, lookupKey_cons, lookupKey_cons]
      by_cases he' : e.1 = k'
      · rw [if_pos he', if_pos he']
      · rw [if_neg he', if_neg he']
        exact ih

theorem lookupKey_mem (h : lookupKey k l = some v) : (k, v) ∈ l := by
  induction l with
  | nil => exact absurd h (by simp [lookupKey_nil])
  | cons e rest ih =>
    rw [lookupKey_cons] at h
    by_cases he : e.1 = k
    · rw [if_pos he] at h
      injection h with hv
      have hkv : (k, v) = e := by rw [← he, ← hv]
      rw [hkv]
      exact List.mem_cons_self _ _
    · rw [if_neg he] at h
      exact List.mem_cons_of_mem _ (ih h)

theorem lookupKey_eq_none_iff : lookupKey k l = none ↔ k ∉ l.map Prod.fst := by
  induction l with
  | nil => simp [lookupKey_nil]
  | cons e rest ih =>
    rw [lookupKey_cons]
    by_cases he : e.1 = k
    · rw [if_pos he]
      simp [← he]
    · rw [if_neg he]
      simp only [List.map_cons, List.mem_cons]
      rw [ih]
      constructor
      · intro hnone hmem
        rcases hmem with hmem | hmem
        · exact he hmem.symm
        · exact hnone hmem
      · intro hh hmem
        exact hh (Or.inr hmem)

theorem mem_replaceKey (h : p ∈ replaceKey k v l) : p = (k, v) ∨ p ∈ l := by
  induction l with
  | nil => exact absurd h (by simp [replaceKey])
  | cons e rest ih =>
    rw [replaceKey] at h
    by_cases he : e.1 = k
    · rw [if_pos he] at h
      rcases List.mem_cons.mp h with h | h
      · exact Or.inl h
      · rcases ih h with h | h
        · exact Or.inl h
        · exact Or.inr (List.mem_cons_of_mem _ h)
    · rw [if_neg he] at h
      rcases List.mem_cons.mp h with h | h
      · exact Or.inr (by rw [h]; exact List.mem_cons_self _ _)
      · rcases ih h with h | h
        · exact Or.inl h
        · exact Or.inr (List.mem_cons_of_mem _ h)

theorem mem_removeKey (h : p ∈ removeKey k l) : p ∈ l := by
  induction l with
  | nil => exact absurd h (by simp [removeKey])
  | cons e rest ih =>
    rw [removeKey] at h
    by_cases he : e.1 = k
    · rw [if_pos he] at h
      exact List.mem_cons_of_mem _ (ih h)
    · rw [if_neg he] at h
      rcases List.mem_cons.mp h with h | h
      · rw [h]; exact List.mem_cons_self _ _
      · exact List.mem_cons_of_mem _ (ih h)

theorem map_fst_replaceKey : (replaceKey k v l).map Prod.fst = l.map Prod.fst := by
  induction l with
  | nil => rfl
  | cons e rest ih =>
    rw [replaceKey]
    by_cases he : e.1 = k
    · rw [if_pos he]
      simp only [List.map_cons, ih]
      rw [he]
    · rw [if_neg he]
      simp only [List.map_cons, ih]

theorem map_fst_removeKey_sublist :
    List.Sublist ((removeKey k l).map Prod.fst) (l.map Prod.fst) := by
  induction l with
  | nil => exact List.Sublist.refl _
  | cons e rest ih =>
    rw [removeKey]
    by_cases he : e.1 = k
    · rw [if_pos he]
      simp only [List.map_cons]
      exact List.Sublist.cons _ ih
    · rw [if_neg he]
      simp only [List.map_cons]
      exact List.Sublist.cons₂ _ ih

end ListLemmas

/-! ## Store lemmas -/

section LruLemmas

variable {V : Type} {c : Lru V} {k k' : String} {v w : V}

theorem add_hit (h : lookupKey k c.entries = some w) :
    c.add k v = ({ c with entries := replaceKey k v c.entries }, none) := by
  unfold Lru.add
  rw [h]

theorem peek_add_hit_self (h : lookupKey k c.entries = some w) :
    ((c.add k v).1).peek k = some v := by
  rw [add_hit h]
  show lookupKey k (replaceKey k v c.entries) = some v
  rw [lookupKey_replaceKey_same, h]
  rfl

theorem peek_add_hit_ne (h : lookupKey k c.entries = some w) (hne : k' ≠ k) :
    ((c.add k v).1).peek k' = c.peek k' := by
  rw [add_hit h]
  show lookupKey k' (replaceKey k v c.entries) = lookupKey k' c.entries
  exact lookupKey_replaceKey_ne hne

theorem peek_add_fresh_self (h : lookupKey k c.entries = none) :
    ((c.add k v).1).peek k = some v := by
  unfold Lru.add
  rw [h]
  by_cases hlen : c.maxSize ≤ c.entries.length
  · rw [if_pos hlen]
    rcases hc : c.entries with _ | ⟨e, rest⟩
    · show lookupKey k [(k, v)] = some v
      rw [lookupKey_cons, if_pos rfl]
    · rw [hc] at h
      rw [lookupKey_cons] at h
      by_cases he : e.1 = k
      · rw [if_pos he] at h; cases h
      · rw [if_neg he] at h
        show lookupKey k (rest ++ [(k, v)]) = some v
        rw [lookupKey_append_right h, lookupKey_cons, if_pos rfl]
  · rw [if_neg hlen]
    show lookupKey k (c.entries ++ [(k, v)]) = some v
    rw [lookupKey_append_right h, lookupKey_cons, if_pos rfl]

theorem peek_remove_self : (c.remove k).peek k = none :=
  lookupKey_removeKey_same

theorem peek_remove_ne (hne : k' ≠ k) : (c.remove k).peek k' = c.peek k' :=
  lookupKey_removeKey_ne hne

theorem get_hit (h : lookupKey k c.entries = some v) :
    c.get k = (some v, { c with entries := removeKey k c.entries ++ [(k, v)] }) := by
  unfold Lru.get
  rw [h]

theorem get_miss (h : lookupKey k c.entries = none) : c.get k = (none, c) := by
  unfold Lru.get
  rw [h]

/-- A touching read re-orders the store but never changes the mapping from
identities to stored values. -/
theorem peek_get_snd : ((c.get k).2).peek k' = c.peek k' := by
  rcases h : lookupKey k c.entries with _ | v₀
  · rw [get_miss h]
  · rw [get_hit h]
    show lookupKey k' (removeKey k c.entries ++ [(k, v₀)]) = lookupKey k' c.entries
    by_cases hke : k' = k
    · subst hke
      rw [lookupKey_append_right lookupKey_removeKey_same, lookupKey_cons, if_pos rfl, h]
    · rcases h' : lookupKey k' (removeKey k c.entries) with _ | u
      · rw [lookupKey_append_right h', lookupKey_cons,
          if_neg (fun hh => hke hh.symm), lookupKey_nil]
        rw [lookupKey_removeKey_ne hke] at h'
        exact h'.symm
      · rw [lookupKey_append_left h']
        rw [lookupKey_removeKey_ne hke] at h'
        exact h'.symm

theorem order_add_hit (h : lookupKey k c.entries = some w) :
    ((c.add k v).1).order = c.order := by
  rw [add_hit h]
  show (replaceKey k v c.entries).map Prod.fst = c.entries.map Prod.fst
  exact map_fst_replaceKey

theorem order_remove_sublist : List.Sublist ((c.remove k).order) c.order :=
  map_fst_removeKey_sublist

end LruLemmas

/-! ## Sync-step lemmas -/

section SyncLemmas

variable {Item Err : Type} {cb : Item → Item × CacheSyncAction × Option Err}
variable {maxR : Int} {m : Lru (cacheItemWrapper Item Err)} {k k' : String}
variable {w : cacheItemWrapper Item Err} {ni : Item} {act : CacheSyncAction} {e : Err}

theorem syncOne_absent (h : m.peek k = none) : syncOne cb maxR m k = m := by
  unfold syncOne
  rw [h]

theorem syncOne_stalled (h : m.peek k = some w) (hr : w.retryCount > maxR) :
    syncOne cb maxR m k = m := by
  unfold syncOne
  simp only [h]
  rw [if_pos hr]

theorem syncOne_err (h : m.peek k = some w) (hr : ¬(w.retryCount > maxR))
    (hcb : cb w.item = (ni, act, some e)) :
    syncOne cb maxR m k =
      (m.add k { item := w.item, retryCount := w.retryCount + 1, syncError := some e }).1 := by
  unfold syncOne
  simp only [h, hcb]
  rw [if_neg hr]

theorem syncOne_update (h : m.peek k = some w) (hr : ¬(w.retryCount > maxR))
    (hcb : cb w.item = (ni, CacheSyncAction.Update, none)) :
    syncOne cb maxR m k = (m.add k { item := ni }).1 := by
  unfold syncOne
  simp only [h, hcb]
  rw [if_neg hr]
  simp

theorem syncOne_delete (h : m.peek k = some w) (hr : ¬(w.retryCount > maxR))
    (hcb : cb w.item = (ni, CacheSyncAction.Delete, none)) :
    syncOne cb maxR m k = m.remove k := by
  unfold syncOne
  simp only [h, hcb]
  rw [if_neg hr]
  simp

theorem syncOne_unchanged (h : m.peek k = some w) (hr : ¬(w.retryCount > maxR))
    (hcb : cb w.item = (ni, CacheSyncAction.Unchanged, none)) :
    syncOne cb maxR m k = m := by
  unfold syncOne
  simp only [h, hcb]
  rw [if_neg hr, if_neg (by decide : ¬(CacheSyncAction.Unchanged = CacheSyncAction.Update)),
    if_neg (by decide : ¬(CacheSyncAction.Unchanged = CacheSyncAction.Delete))]

/-- Processing one snapshotted identity never touches the entry stored under a
different identity. -/
theorem syncOne_peek_ne (hne : k ≠ k') : (syncOne cb maxR m k').peek k = m.peek k := by
  rcases h : m.peek k' with _ | w'
  · rw [syncOne_absent h]
  · by_cases hr : w'.retryCount > maxR
    · rw [syncOne_stalled h hr]
    · rcases hcb : cb w'.item with ⟨ni', act', e'⟩
      rcases e' with _ | e'
      · rcases act' with _ | _ | _
        · rw [syncOne_unchanged h hr hcb]
        · rw [syncOne_update h hr hcb]
          exact peek_add_hit_ne h hne
        · rw [syncOne_delete h hr hcb]
          exact peek_remove_ne hne
      · rw [syncOne_err h hr hcb]
        exact peek_add_hit_ne h hne

/-- A permanently stalled wrapper survives the processing of any list of
identities completely unchanged, whatever the callback does. -/
theorem stalled_foldl (h : m.peek k = some w) (hr : w.retryCount > maxR) :
    ∀ ks : List String, (List.foldl (syncOne cb maxR) m ks).peek k = some w := by
  intro ks
  induction ks generalizing m with
  | nil => exact h
  | cons k₀ rest ih =>
    rw [List.foldl_cons]
    by_cases hk : k₀ = k
    · subst hk
      rw [syncOne_stalled h hr]
      exact ih h
    · refine ih ?_
      rw [syncOne_peek_ne fun hh => hk hh.symm]
      exact h

end SyncLemmas

/-! ## Store-wide invariants -/

section Invariants

variable {V : Type} {P : V → Prop} {c : Lru V} {k k' : String} {v w : V}

theorem storeAll_peek (h : storeAll P c) (hp : c.peek k = some v) : P v :=
  h _ (lookupKey_mem hp)

theorem lookupKey_append_single_ne {l : List (String × V)} (h : ¬(k = k')) :
    lookupKey k' (l ++ [(k, v)]) = lookupKey k' l := by
  rcases hl : lookupKey k' l with _ | u
  · rw [lookupKey_append_right hl, lookupKey_cons, if_neg h, lookupKey_nil]
  · rw [lookupKey_append_left hl]

/-- The two possible shapes of the entry list after a fresh insertion. -/
theorem add_fresh_entries (hl : lookupKey k c.entries = none) :
    ((c.add k v).1).entries = c.entries ++ [(k, v)] ∨
    ((c.add k v).1).entries = c.entries.tail ++ [(k, v)] := by
  unfold Lru.add
  simp only [hl]
  by_cases hlen : c.maxSize ≤ c.entries.length
  · rw [if_pos hlen]
    rcases c.entries with _ | ⟨e, rest⟩
    · left
      rfl
    · right
      rfl
  · rw [if_neg hlen]
    left
    rfl

theorem storeAll_add (h : storeAll P c) (hv : P v) : storeAll P (c.add k v).1 := by
  intro p hp
  rcases hl : lookupKey k c.entries with _ | w₀
  · rcases add_fresh_entries (v := v) hl with hE | hE
    · rw [hE] at hp
      rcases List.mem_append.mp hp with h1 | h1
      · exact h _ h1
      · rw [List.mem_singleton.mp h1]
        exact hv
    · rw [hE] at hp
      rcases List.mem_append.mp hp with h1 | h1
      · exact h _ (List.mem_of_mem_tail h1)
      · rw [List.mem_singleton.mp h1]
        exact hv
  · rw [add_hit hl] at hp
    rcases mem_replaceKey hp with h1 | h1
    · rw [h1]
      exact hv
    · exact h _ h1

theorem storeAll_remove (h : storeAll P c) : storeAll P (c.remove k) :=
  fun p hp => h p (mem_removeKey hp)

theorem storeAll_get_snd (h : storeAll P c) : storeAll P (c.get k).2 := by
  rcases hl : lookupKey k c.entries with _ | v₀
  · rw [get_miss hl]
    exact h
  · rw [get_hit hl]
    intro p hp
    rcases List.mem_append.mp hp with h1 | h1
    · exact h _ (mem_removeKey h1)
    · rw [List.mem_singleton.mp h1]
      exact h _ (lookupKey_mem hl)

/-- A fresh insertion leaves every other identity's entry either intact or
evicted (never changed), provided identities are unique in the store. -/
theorem peek_add_fresh_other (hl : lookupKey k c.entries = none)
    (hnd : (c.entries.map Prod.fst).Nodup) (hne : k' ≠ k) :
    ((c.add k v).1).peek k' = c.peek k' ∨ ((c.add k v).1).peek k' = none := by
  have hkk : ¬(k = k') := fun hh => hne hh.symm
  rcases add_fresh_entries (v := v) hl with hE | hE
  · left
    show lookupKey k' ((c.add k v).1).entries = lookupKey k' c.entries
    rw [hE, lookupKey_append_single_ne hkk]
  · rcases hc : c.entries with _ | ⟨e, rest⟩
    · left
      show lookupKey k' ((c.add k v).1).entries = lookupKey k' c.entries
      rw [hE, hc, lookupKey_append_single_ne hkk]
      rfl
    · by_cases he : e.1 = k'
      · right
        show lookupKey k' ((c.add k v).1).entries = none
        rw [hE, hc, lookupKey_append_single_ne hkk]
        show lookupKey k' rest = none
        rw [lookupKey_eq_none_iff]
        rw [hc] at hnd
        simp only [List.map_cons] at hnd
        have hnotin := (List.nodup_cons.mp hnd).1
        rw [he] at hnotin
        exact hnotin
      · left
        show lookupKey k' ((c.add k v).1).entries = lookupKey k' c.entries
        rw [hE, hc, lookupKey_append_single_ne hkk]
        show lookupKey k' rest = lookupKey k' (e :: rest)
        rw [lookupKey_cons, if_neg he]

theorem nodup_add (hnd : (c.entries.map Prod.fst).Nodup) :
    ((((c.add k v).1).entries).map Prod.fst).Nodup := by
  rcases hl : lookupKey k c.entries with _ | w₀
  · have hk : k ∉ c.entries.map Prod.fst := lookupKey_eq_none_iff.mp hl
    rcases add_fresh_entries (v := v) hl with hE | hE
    · rw [hE]
      simp only [List.map_append, List.map_cons, List.map_nil]
      refine List.Nodup.append hnd (List.nodup_singleton _) ?_
      intro a ha hb
      rw [List.mem_singleton] at hb
      rw [hb] at ha
      exact hk ha
    · rw [hE]
      simp only [List.map_append, List.map_cons, List.map_nil]
      have hsub : List.Sublist (c.entries.tail.map Prod.fst) (c.entries.map Prod.fst) :=
        (List.tail_sublist _).map _
      refine List.Nodup.append (hnd.sublist hsub) (List.nodup_singleton _) ?_
      intro a ha hb
      rw [List.mem_singleton] at hb
      rw [hb] at ha
      exact hk (hsub.mem ha)
  · rw [add_hit hl]
    show ((replaceKey k v c.entries).map Prod.fst).Nodup
    rw [map_fst_replaceKey]
    exact hnd

theorem nodup_remove (hnd : (c.entries.map Prod.fst).Nodup) :
    (((c.remove k).entries).map Prod.fst).Nodup :=
  hnd.sublist map_fst_removeKey_sublist

theorem nodup_get_snd (hnd : (c.entries.map Prod.fst).Nodup) :
    ((((c.get k).2).entries).map Prod.fst).Nodup := by
  rcases hl : lookupKey k c.entries with _ | v₀
  · rw [get_miss hl]
    exact hnd
  · rw [get_hit hl]
    show (((removeKey k c.entries ++ [(k, v₀)])).map Prod.fst).Nodup
    simp only [List.map_append, List.map_cons, List.map_nil]
    refine List.Nodup.append (hnd.sublist map_fst_removeKey_sublist) (List.nodup_singleton _) ?_
    intro a ha hb
    rw [List.mem_singleton] at hb
    rw [hb] at ha
    exact absurd ha (lookupKey_eq_none_iff.mp lookupKey_removeKey_same)

end Invariants

/-! ## Cache-level invariants -/

section CacheInvariants

variable {Item Err : Type} {cb : Item → Item × CacheSyncAction × Option Err}
variable {maxR : Int} {m : Lru (cacheItemWrapper Item Err)} {k : String}

theorem retryBound_syncOne (hmr : 0 ≤ maxR) (h : storeAll (retryBound maxR) m) :
    storeAll (retryBound maxR) (syncOne cb maxR m k) := by
  rcases hpk : m.peek k with _ | w
  · rw [syncOne_absent hpk]
    exact h
  · by_cases hr : w.retryCount > maxR
    · rw [syncOne_stalled hpk hr]
      exact h
    · have hw := storeAll_peek h hpk
      rcases hcb : cb w.item with ⟨ni, act, e⟩
      rcases e with _ | e
      · rcases act with _ | _ | _
        · rw [syncOne_unchanged hpk hr hcb]
          exact h
        · rw [syncOne_update hpk hr hcb]
          refine storeAll_add h ⟨?_, ?_⟩
          · show (0 : Int) ≤ 0
            exact le_refl 0
          · show (0 : Int) ≤ maxR + 1
            omega
        · rw [syncOne_delete hpk hr hcb]
          exact storeAll_remove h
      · rw [syncOne_err hpk hr hcb]
        rcases hw with ⟨hw1, hw2⟩
        refine storeAll_add h ⟨?_, ?_⟩
        · show (0 : Int) ≤ w.retryCount + 1
          omega
        · show w.retryCount + 1 ≤ maxR + 1
          omega

theorem retryBound_foldl (hmr : 0 ≤ maxR) (h : storeAll (retryBound maxR) m)
    (ks : List String) :
    storeAll (retryBound maxR) (List.foldl (syncOne cb maxR) m ks) := by
  induction ks generalizing m with
  | nil => exact h
  | cons k₀ rest ih =>
    rw [List.foldl_cons]
    exact ih (retryBound_syncOne hmr h)

theorem nodup_syncOne (hnd : (m.entries.map Prod.fst).Nodup) :
    (((syncOne cb maxR m k).entries).map Prod.fst).Nodup := by
  rcases hpk : m.peek k with _ | w
  · rw [syncOne_absent hpk]
    exact hnd
  · by_cases hr : w.retryCount > maxR
    · rw [syncOne_stalled hpk hr]
      exact hnd
    · rcases hcb : cb w.item with ⟨ni, act, e⟩
      rcases e with _ | e
      · rcases act with _ | _ | _
        · rw [syncOne_unchanged hpk hr hcb]
          exact hnd
        · rw [syncOne_update hpk hr hcb]
          exact nodup_add hnd
        · rw [syncOne_delete hpk hr hcb]
          exact nodup_remove hnd
      · rw [syncOne_err hpk hr hcb]
        exact nodup_add hnd

theorem nodup_foldl (hnd : (m.entries.map Prod.fst).Nodup) (ks : List String) :
    (((List.foldl (syncOne cb maxR) m ks).entries).map Prod.fst).Nodup := by
  induction ks generalizing m with
  | nil => exact hnd
  | cons k₀ rest ih =>
    rw [List.foldl_cons]
    exact ih (nodup_syncOne hnd)

end CacheInvariants

/-! ## Public-API equations -/

section ApiLemmas

variable {Item Err : Type} {c : autoRefreshCache Item Err} {id : String}
variable {wr : cacheItemWrapper Item Err} {item : Item} {ID : Item → String}

theorem Get_hit (h : c.lruMap.peek id = some wr) :
    Get c id = ((some wr.item, wr.syncError.map CacheError.syncErr),
      { c with lruMap := (c.lruMap.get id).2 }) := by
  unfold Get
  rcases hg : c.lruMap.get id with ⟨r, m⟩
  have hr : r = some wr := by
    have : (c.lruMap.get id).1 = some wr := by
      rw [get_hit h]
    rw [hg] at this
    exact this
  rw [hr]

theorem Get_miss (h : c.lruMap.peek id = none) :
    Get c id = ((none, some CacheError.notFound), c) := by
  unfold Get
  rw [get_miss h]

theorem GetOrCreate_hit (h : c.lruMap.peek (ID item) = some wr) :
    GetOrCreate ID c item = ((wr.item, wr.syncError.map CacheError.syncErr),
      { c with lruMap := (c.lruMap.get (ID item)).2 }) := by
  unfold GetOrCreate
  rcases hg : c.lruMap.get (ID item) with ⟨r, m⟩
  have hr : r = some wr := by
    have : (c.lruMap.get (ID item)).1 = some wr := by
      rw [get_hit h]
    rw [hg] at this
    exact this
  rw [hr]

theorem GetOrCreate_miss (h : c.lruMap.peek (ID item) = none) :
    GetOrCreate ID c item = ((item, none),
      { c with lruMap := (c.lruMap.add (ID item) { item := item }).1 }) := by
  unfold GetOrCreate
  rw [get_miss h]

end ApiLemmas

/-! ## Reachability invariants -/

section ReachLemmas

variable {Item Err : Type} {ID : Item → String} {c : autoRefreshCache Item Err}
variable {item : Item}

theorem nodup_getOrCreate (hnd : ((c.lruMap.entries).map Prod.fst).Nodup) :
    ((((GetOrCreate ID c item).2).lruMap.entries).map Prod.fst).Nodup := by
  rcases hpk : c.lruMap.peek (ID item) with _ | wr
  · rw [GetOrCreate_miss hpk]
    exact nodup_add hnd
  · rw [GetOrCreate_hit hpk]
    exact nodup_get_snd hnd

/-- Every reachable store keeps at most one entry per identity (spec §3's
Store invariant). -/
theorem reach_nodup (h : Reach ID c) : ((c.lruMap.entries).map Prod.fst).Nodup := by
  induction h with
  | init syncCb sz rp mr => exact List.nodup_nil
  | getOrCreate item _ ih => exact nodup_getOrCreate ih
  | syncStep _ ih => exact nodup_foldl ih _

theorem getOrCreate_maxRetries :
    ((GetOrCreate ID c item).2).maxRetries = c.maxRetries := by
  rcases hpk : c.lruMap.peek (ID item) with _ | wr
  · rw [GetOrCreate_miss hpk]
  · rw [GetOrCreate_hit hpk]

theorem retryBound_getOrCreate (hmr : 0 ≤ c.maxRetries)
    (h : storeAll (retryBound c.maxRetries) c.lruMap) :
    storeAll (retryBound c.maxRetries) ((GetOrCreate ID c item).2).lruMap := by
  rcases hpk : c.lruMap.peek (ID item) with _ | wr
  · rw [GetOrCreate_miss hpk]
    refine storeAll_add h ⟨?_, ?_⟩
    · show (0 : Int) ≤ 0
      exact le_refl 0
    · show (0 : Int) ≤ c.maxRetries + 1
      omega
  · rw [GetOrCreate_hit hpk]
    exact storeAll_get_snd h

/-- The retry-count bound holds in every reachable state (for a non-negative
`maxRetries`). -/
theorem reach_retryBound (h : Reach ID c) (hmr : 0 ≤ c.maxRetries) :
    storeAll (retryBound c.maxRetries) c.lruMap := by
  induction h with
  | init syncCb sz rp mr =>
    intro p hp
    exact absurd hp (List.not_mem_nil p)
  | getOrCreate item _ ih =>
    rw [getOrCreate_maxRetries] at hmr ⊢
    exact retryBound_getOrCreate hmr (ih hmr)
  | syncStep _ ih => exact retryBound_foldl hmr (ih hmr) _

end ReachLemmas

/-! ## The claims -/

/-- C1: for a cached identity whose wrapper is still eligible
(`retryCount ≤ maxRetries`), when the callback invocation returns a non-nil
error the cycle re-adds, under the same identity, a wrapper holding the same
item with `retryCount` incremented by one and the returned error recorded;
the error is only recorded (the step returns a store, with no error channel)
and the cycle simply folds on over the remaining snapshotted identities. -/
theorem C1_callback_error_recorded {Item Err : Type}
    (cb : Item → Item × CacheSyncAction × Option Err) (maxR : Int)
    (m : Lru (cacheItemWrapper Item Err)) (k : String)
    (w : cacheItemWrapper Item Err) (ni : Item) (act : CacheSyncAction) (e : Err)
    (hpk : m.peek k = some w) (hr : w.retryCount ≤ maxR)
    (hcb : cb w.item = (ni, act, some e)) :
    (syncOne cb maxR m k).peek k =
      some { item := w.item, retryCount := w.retryCount + 1, syncError := some e } ∧
    ∀ rest : List String,
      List.foldl (syncOne cb maxR) m (k :: rest) =
        List.foldl (syncOne cb maxR) (syncOne cb maxR m k) rest := by
  have hr' : ¬(w.retryCount > maxR) := not_lt.mpr hr
  constructor
  · rw [syncOne_err hpk hr' hcb]
    exact peek_add_hit_self hpk
  · intro rest
    rw [List.foldl_cons]

/-- Witness for C1: item `5` under `"a"` with one prior failure, callback
failing with error `7`, `maxRetries = 3`. -/
theorem C1_witness :
    (syncOne cbErrW 3 storeW "a").peek "a" =
      some { item := wrapW.item, retryCount := wrapW.retryCount + 1, syncError := some 7 } ∧
    List.foldl (syncOne cbErrW 3) storeW ["a", "b"] =
      List.foldl (syncOne cbErrW 3) (syncOne cbErrW 3 storeW "a") ["b"] := by
  have h := C1_callback_error_recorded cbErrW 3 storeW "a" wrapW 5 CacheSyncAction.Unchanged 7
    (by decide) (by decide) rfl
  exact ⟨h.1, h.2 ["b"]⟩

/-- C2: an identity whose wrapper has `retryCount > maxRetries` is skipped by
the cycle without any mutation — the per-identity step is the identity on the
store, the whole cycle (under any callback whatsoever, showing the callback
is never consulted for it) leaves its entry untouched, and `Get` still serves
the last item together with the last recorded error. -/
theorem C2_stalled_item_skipped {Item Err : Type} (c : autoRefreshCache Item Err)
    (k : String) (w : cacheItemWrapper Item Err)
    (hpk : c.lruMap.peek k = some w) (hr : w.retryCount > c.maxRetries) :
    syncOne c.syncCb c.maxRetries c.lruMap k = c.lruMap ∧
    (∀ cb' : Item → Item × CacheSyncAction × Option Err,
      ((sync { c with syncCb := cb' }).lruMap).peek k = some w) ∧
    (Get (sync c) k).1 = (some w.item, w.syncError.map CacheError.syncErr) := by
  refine ⟨syncOne_stalled hpk hr, fun cb' => stalled_foldl hpk hr _, ?_⟩
  have hs : (sync c).lruMap.peek k = some w := stalled_foldl hpk hr _
  rw [Get_hit hs]

/-- Witness for C2: item `5` under `"a"` with `retryCount = 4 > maxRetries = 3`
and recorded error `9`. -/
theorem C2_witness :
    syncOne cacheW2s.syncCb cacheW2s.maxRetries cacheW2s.lruMap "a" = cacheW2s.lruMap ∧
    ((sync { cacheW2s with syncCb := cbUpdW }).lruMap).peek "a" =
      some { item := 5, retryCount := 4, syncError := some 9 } ∧
    (Get (sync cacheW2s) "a").1 =
      (some ({ item := 5, retryCount := 4, syncError := some 9 } :
          cacheItemWrapper Int Int).item,
        (({ item := 5, retryCount := 4, syncError := some 9 } :
          cacheItemWrapper Int Int).syncError).map CacheError.syncErr) := by
  have h := C2_stalled_item_skipped cacheW2s "a"
    { item := 5, retryCount := 4, syncError := some 9 } (by decide) (by decide)
  exact ⟨h.1, h.2.1 cbUpdW, h.2.2⟩

/-- C3: `GetOrCreate` is find-or-insert.  On a hit it returns the stored item
and the stored last error, discarding the argument, and leaves the store's
identity-to-wrapper mapping (spec §3's Store) unchanged — the hit only marks
the entry recently used.  On a miss it inserts a fresh wrapper with
`retryCount = 0` and no error and returns the argument with no error.  Two
successive calls with the same identity both return the first value. -/
theorem C3_getOrCreate_find_or_insert {Item Err : Type} (ID : Item → String)
    (c : autoRefreshCache Item Err) (item : Item) :
    (∀ w : cacheItemWrapper Item Err, c.lruMap.peek (ID item) = some w →
      (GetOrCreate ID c item).1 = (w.item, w.syncError.map CacheError.syncErr) ∧
      ∀ id : String, ((GetOrCreate ID c item).2).lruMap.peek id = c.lruMap.peek id) ∧
    (c.lruMap.peek (ID item) = none →
      (GetOrCreate ID c item).1 = (item, none) ∧
      ((GetOrCreate ID c item).2).lruMap.peek (ID item) = some { item := item }) ∧
    (∀ item₂ : Item, ID item₂ = ID item → c.lruMap.peek (ID item) = none →
      (GetOrCreate ID ((GetOrCreate ID c item).2) item₂).1 = (item, none)) := by
  refine ⟨fun w hw => ?_, fun hn => ?_, fun item₂ hid hn => ?_⟩
  · rw [GetOrCreate_hit hw]
    exact ⟨rfl, fun id => peek_get_snd⟩
  · rw [GetOrCreate_miss hn]
    exact ⟨rfl, peek_add_fresh_self hn⟩
  · have h1 : ((GetOrCreate ID c item).2).lruMap.peek (ID item₂) =
        some { item := item } := by
      rw [GetOrCreate_miss hn, hid]
      exact peek_add_fresh_self hn
    rw [GetOrCreate_hit h1]
    rfl

/-- Witness for C3: hit on `"a"` (argument `6` discarded, mapping untouched),
miss-then-hit on a fresh store (both calls return item `5`). -/
theorem C3_witness :
    ((GetOrCreate idW cacheW 6).1 = (wrapW.item, wrapW.syncError.map CacheError.syncErr) ∧
      ((GetOrCreate idW cacheW 6).2).lruMap.peek "a" = cacheW.lruMap.peek "a") ∧
    ((GetOrCreate idW cacheR0 5).1 = (5, none) ∧
      ((GetOrCreate idW cacheR0 5).2).lruMap.peek "a" = some { item := 5 }) ∧
    (GetOrCreate idW ((GetOrCreate idW cacheR0 5).2) 6).1 = (5, none) := by
  have h1 := (C3_getOrCreate_find_or_insert idW cacheW 6).1 wrapW (by decide)
  have h2 := (C3_getOrCreate_find_or_insert idW cacheR0 5).2.1 (by decide)
  have h3 := (C3_getOrCreate_find_or_insert idW cacheR0 5).2.2 6 rfl (by decide)
  exact ⟨⟨h1.1, h1.2 "a"⟩, h2, h3⟩

/-- C4: a successful callback invocation with the `Update` verdict re-adds,
under the processed identity, a wrapper holding the new item with
`retryCount = 0` and no recorded error, whatever the previous (eligible)
retry count and error were. -/
theorem C4_update_resets_wrapper {Item Err : Type}
    (cb : Item → Item × CacheSyncAction × Option Err) (maxR : Int)
    (m : Lru (cacheItemWrapper Item Err)) (k : String)
    (w : cacheItemWrapper Item Err) (ni : Item)
    (hpk : m.peek k = some w) (hr : w.retryCount ≤ maxR)
    (hcb : cb w.item = (ni, CacheSyncAction.Update, none)) :
    (syncOne cb maxR m k).peek k =
      some { item := ni, retryCount := 0, syncError := none } := by
  rw [syncOne_update hpk (not_lt.mpr hr) hcb]
  exact peek_add_hit_self hpk

/-- Witness for C4: a wrapper with `retryCount = 3` and a recorded error gets
`retryCount = 0`, no error and the new item after a successful `Update`. -/
theorem C4_witness :
    (syncOne cbUpdW 3 storeW4 "a").peek "a" =
      some { item := 6, retryCount := 0, syncError := none } :=
  C4_update_resets_wrapper cbUpdW 3 storeW4 "a"
    { item := 5, retryCount := 3, syncError := some 9 } 6 (by decide) (by decide) rfl

/-- C5: a successful callback invocation with the `Unchanged` verdict leaves
the whole store exactly as it was — the per-identity step is the identity
function on the store (entry, retry count, error and recency order all
untouched), for every returned `newItem`. -/
theorem C5_unchanged_is_noop {Item Err : Type}
    (cb : Item → Item × CacheSyncAction × Option Err) (maxR : Int)
    (m : Lru (cacheItemWrapper Item Err)) (k : String)
    (w : cacheItemWrapper Item Err) (ni : Item)
    (hpk : m.peek k = some w) (hr : w.retryCount ≤ maxR)
    (hcb : cb w.item = (ni, CacheSyncAction.Unchanged, none)) :
    syncOne cb maxR m k = m :=
  syncOne_unchanged hpk (not_lt.mpr hr) hcb

/-- Witness for C5: an `Unchanged` verdict (whose `newItem` differs from the
stored item) leaves the concrete store bit-for-bit intact. -/
theorem C5_witness : syncOne cbUnchW 3 storeW4 "a" = storeW4 :=
  C5_unchanged_is_noop cbUnchW 3 storeW4 "a"
    { item := 5, retryCount := 3, syncError := some 9 } 5 (by decide) (by decide) rfl

/-- C6: `Get` returns the stored item together with the wrapper's recorded
last error exactly when the identity is present, and returns no item with the
`ErrNotFound` sentinel exactly when it is absent (never inserted, or removed
or evicted since). -/
theorem C6_get_found_or_notfound {Item Err : Type} (c : autoRefreshCache Item Err)
    (id : String) :
    (∀ wr : cacheItemWrapper Item Err, c.lruMap.peek id = some wr →
      (Get c id).1 = (some wr.item, wr.syncError.map CacheError.syncErr)) ∧
    (c.lruMap.peek id = none → (Get c id).1 = (none, some CacheError.notFound)) := by
  constructor
  · intro wr hw
    rw [Get_hit hw]
  · intro hn
    rw [Get_miss hn]

/-- Witness for C6: a hit on `"a"` serves the stored item and error; a lookup
of the never-inserted `"b"` yields `ErrNotFound` and no item. -/
theorem C6_witness :
    (Get cacheW "a").1 = (some wrapW.item, wrapW.syncError.map CacheError.syncErr) ∧
    (Get cacheW "b").1 = (none, some CacheError.notFound) :=
  ⟨(C6_get_found_or_notfound cacheW "a").1 wrapW (by decide),
    (C6_get_found_or_notfound cacheW "b").2 (by decide)⟩

theorem syncOne_order_cases {Item Err : Type}
    (cb : Item → Item × CacheSyncAction × Option Err) (maxR : Int)
    (m : Lru (cacheItemWrapper Item Err)) (k : String) :
    (syncOne cb maxR m k).order = m.order ∨ syncOne cb maxR m k = m.remove k := by
  rcases hpk : m.peek k with _ | w
  · left
    rw [syncOne_absent hpk]
  · by_cases hr : w.retryCount > maxR
    · left
      rw [syncOne_stalled hpk hr]
    · rcases hcb : cb w.item with ⟨ni, act, e⟩
      rcases e with _ | e
      · rcases act with _ | _ | _
        · left
          rw [syncOne_unchanged hpk hr hcb]
        · left
          rw [syncOne_update hpk hr hcb]
          exact order_add_hit hpk
        · right
          exact syncOne_delete hpk hr hcb
      · left
        rw [syncOne_err hpk hr hcb]
        exact order_add_hit hpk

theorem order_foldl_sublist {Item Err : Type}
    (cb : Item → Item × CacheSyncAction × Option Err) (maxR : Int) :
    ∀ (ks : List String) (m : Lru (cacheItemWrapper Item Err)),
      List.Sublist ((List.foldl (syncOne cb maxR) m ks).order) m.order := by
  intro ks
  induction ks with
  | nil => exact fun m => List.Sublist.refl _
  | cons k rest ih =>
    intro m
    rw [List.foldl_cons]
    refine List.Sublist.trans (ih _) ?_
    rcases syncOne_order_cases cb maxR m k with hE | hE
    · rw [hE]
    · rw [hE]
      exact order_remove_sublist

/-- C7: the background cycle never disturbs the caller-driven recency order:
each per-identity step either leaves the recency order exactly as it was
(skips and `Unchanged` touch nothing, and re-`Add`s overwrite in place since
the engine reads via `Peek` rather than the touching `Get`) or, on a
`Delete` verdict, removes that one identity; consequently a whole cycle's
resulting order is a sublist of the previous order — the surviving entries
keep their relative recency ordering. -/
theorem C7_sync_preserves_recency {Item Err : Type} (c : autoRefreshCache Item Err) :
    (∀ (cb : Item → Item × CacheSyncAction × Option Err) (maxR : Int)
        (m : Lru (cacheItemWrapper Item Err)) (k : String),
      (syncOne cb maxR m k).order = m.order ∨ syncOne cb maxR m k = m.remove k) ∧
    List.Sublist ((sync c).lruMap.order) (c.lruMap.order) :=
  ⟨fun cb maxR m k => syncOne_order_cases cb maxR m k,
    order_foldl_sublist c.syncCb c.maxRetries c.lruMap.keys c.lruMap⟩

/-- C8: `NewAutoRefreshCache` fails exactly when the store constructor fails,
surfacing that error unmodified; for every positive `maxSize` it succeeds —
whatever the callback, rate limiter, resync period, `maxRetries` or scope —
performing no other validation. -/
theorem C8_construction_error_iff_store {Item Err : Type}
    (cb : Item → Item × CacheSyncAction × Option Err) (rl : Unit) (rp : Nat)
    (maxSize maxRetries : Int) (sc : Option Unit) :
    (∀ e : LruNewError,
      NewAutoRefreshCache cb rl rp maxSize maxRetries sc = Except.error e ↔
        lruNewWithEvict (cacheItemWrapper Item Err) maxSize = Except.error e) ∧
    (0 < maxSize →
      NewAutoRefreshCache cb rl rp maxSize maxRetries sc =
        Except.ok { syncCb := cb, lruMap := { maxSize := maxSize.toNat, entries := [] },
                    resyncPeriod := rp, maxRetries := maxRetries }) ∧
    (maxSize ≤ 0 →
      NewAutoRefreshCache cb rl rp maxSize maxRetries sc =
        Except.error LruNewError.mustProvidePositiveSize) := by
  by_cases hle : maxSize ≤ 0
  · have h1 : lruNewWithEvict (cacheItemWrapper Item Err) maxSize =
        Except.error LruNewError.mustProvidePositiveSize := by
      unfold lruNewWithEvict
      rw [if_pos hle]
    have h2 : @NewAutoRefreshCache Item Err cb rl rp maxSize maxRetries sc =
        Except.error LruNewError.mustProvidePositiveSize := by
      unfold NewAutoRefreshCache
      rw [h1]
    refine ⟨fun e => ?_, fun hpos => absurd hpos (by omega), fun _ => h2⟩
    rw [h1, h2]
    simp
  · have h1 : lruNewWithEvict (cacheItemWrapper Item Err) maxSize =
        Except.ok { maxSize := maxSize.toNat, entries := [] } := by
      unfold lruNewWithEvict
      rw [if_neg hle]
    have h2 : @NewAutoRefreshCache Item Err cb rl rp maxSize maxRetries sc =
        Except.ok { syncCb := cb, lruMap := { maxSize := maxSize.toNat, entries := [] },
                    resyncPeriod := rp, maxRetries := maxRetries } := by
      unfold NewAutoRefreshCache
      rw [h1]
    refine ⟨fun e => ?_, fun _ => h2, fun hneg => absurd hneg hle⟩
    rw [h1, h2]
    simp

/-- Witness for C8: capacity `2` succeeds (no other validation); capacity `0`
fails with the store's error. -/
theorem C8_witness :
    @NewAutoRefreshCache Int Int cbUpdW () 0 2 3 none =
      Except.ok { syncCb := cbUpdW, lruMap := { maxSize := (2 : Int).toNat, entries := [] },
                  resyncPeriod := 0, maxRetries := 3 } ∧
    @NewAutoRefreshCache Int Int cbUpdW () 0 0 3 none =
      Except.error LruNewError.mustProvidePositiveSize :=
  ⟨(C8_construction_error_iff_store cbUpdW () 0 2 3 none).2.1 (by decide),
    (C8_construction_error_iff_store cbUpdW () 0 0 3 none).2.2 (by decide)⟩

/-- C9: in every state reachable through `GetOrCreate` calls and sync cycles
with a fixed `maxRetries ≥ 0`, every stored wrapper has
`0 ≤ retryCount ≤ maxRetries + 1`; and a wrapper that has reached
`maxRetries + 1` is never changed again — any further sync cycle (under any
callback) leaves it in place unchanged, and a further `GetOrCreate` either
leaves it unchanged or (at capacity) evicts it outright. -/
theorem C9_retry_invariant {Item Err : Type} (ID : Item → String)
    (c : autoRefreshCache Item Err) (k : String) (w : cacheItemWrapper Item Err)
    (h : Reach ID c) (hmr : 0 ≤ c.maxRetries) (hpk : c.lruMap.peek k = some w) :
    (0 ≤ w.retryCount ∧ w.retryCount ≤ c.maxRetries + 1) ∧
    (w.retryCount = c.maxRetries + 1 →
      (∀ cb' : Item → Item × CacheSyncAction × Option Err,
        ((sync { c with syncCb := cb' }).lruMap).peek k = some w) ∧
      (∀ item : Item,
        ((GetOrCreate ID c item).2).lruMap.peek k = some w ∨
        ((GetOrCreate ID c item).2).lruMap.peek k = none)) := by
  have hbound := storeAll_peek (reach_retryBound h hmr) hpk
  refine ⟨hbound, fun hstall => ?_⟩
  have hgt : w.retryCount > c.maxRetries := by omega
  refine ⟨fun cb' => stalled_foldl hpk hgt _, fun item => ?_⟩
  rcases hpk2 : c.lruMap.peek (ID item) with _ | wr
  · by_cases hk : k = ID item
    · rw [hk, hpk2] at hpk
      cases hpk
    · rw [GetOrCreate_miss hpk2]
      have hnd := reach_nodup h
      have hcases := peek_add_fresh_other (v := { item := item }) hpk2 hnd hk
      rcases hcases with hE | hE
      · left
        show ((c.lruMap.add (ID item) { item := item }).1).peek k = some w
        rw [hE]
        exact hpk
      · right
        exact hE
  · rw [GetOrCreate_hit hpk2]
    left
    show ((c.lruMap.get (ID item)).2).peek k = some w
    rw [peek_get_snd]
    exact hpk

/-- Witness for C9: from a fresh cache with `maxRetries = 0` and a failing
callback, inserting item `5` and running one cycle reaches a state whose
wrapper has `retryCount = 1 = maxRetries + 1`; its bound holds, any further
cycle leaves it unchanged, and a colliding `GetOrCreate` leaves it in place. -/
theorem C9_witness :
    ((0 : Int) ≤ ({ item := 5, retryCount := 1, syncError := some 7 } :
        cacheItemWrapper Int Int).retryCount ∧
      ({ item := 5, retryCount := 1, syncError := some 7 } :
        cacheItemWrapper Int Int).retryCount ≤ cacheR2.maxRetries + 1) ∧
    ((sync { cacheR2 with syncCb := cbUpdW }).lruMap).peek "a" =
      some { item := 5, retryCount := 1, syncError := some 7 } ∧
    (((GetOrCreate idW cacheR2 6).2).lruMap.peek "a" =
        some { item := 5, retryCount := 1, syncError := some 7 } ∨
      ((GetOrCreate idW cacheR2 6).2).lruMap.peek "a" = none) := by
  have h := C9_retry_invariant idW cacheR2 "a"
    { item := 5, retryCount := 1, syncError := some 7 }
    (Reach.syncStep (Reach.getOrCreate 5 (Reach.init cbErrW 2 0 0)))
    (by decide) (by decide)
  have h2 := h.2 (by decide)
  exact ⟨h.1, h2.1 cbUpdW, h2.2 6⟩

/-- C10 counterexample: the callback may legally return a nil `newItem` with
an `Update` verdict; the cycle stores it unchecked, so a state with a
nil-item wrapper is reachable (first conjunct), and on the next cycle the
`wrapper.CacheItem.(CacheItem)` type assertion fails — modelled as `none`, a
Go panic (second conjunct).  Hence the type assertions do not succeed on
every reachable store state. -/
theorem C10_counterexample :
    syncN cbNilUpd 3 storeN1 =
      some { maxSize := 2,
             entries := [("a", { item := none, retryCount := 0, syncError := none })] } ∧
    syncN cbNilUpd 3
      { maxSize := 2,
        entries := [("a", { item := none, retryCount := 0, syncError := none })] } = none :=
  ⟨by decide, by decide⟩

theorem syncOneN_good {Item Err : Type}
    {cb : Item → Option Item × CacheSyncAction × Option Err} {maxR : Int}
    {m : Lru (cacheItemWrapperN Item Err)}
    (hcb : ∀ it : Item, ∀ ni : Option Item, ∀ act : CacheSyncAction,
      cb it = (ni, act, none) → act = CacheSyncAction.Update → ni.isSome = true)
    (hm : storeAll (fun w : cacheItemWrapperN Item Err => (w.item).isSome = true) m)
    (k : String) :
    ∃ m2, syncOneN cb maxR m k = some m2 ∧
      storeAll (fun w : cacheItemWrapperN Item Err => (w.item).isSome = true) m2 := by
  rcases hpk : m.peek k with _ | w
  · refine ⟨m, ?_, hm⟩
    unfold syncOneN
    rw [hpk]
  · by_cases hr : w.retryCount > maxR
    · refine ⟨m, ?_, hm⟩
      unfold syncOneN
      simp only [hpk]
      rw [if_pos hr]
    · have hws : (w.item).isSome = true :=
        storeAll_peek (P := fun w : cacheItemWrapperN Item Err => (w.item).isSome = true) hm hpk
      rcases hit : w.item with _ | it
      · rw [hit] at hws
        cases hws
      · rcases hcbv : cb it with ⟨ni, act, e⟩
        rcases e with _ | e
        · rcases act with _ | _ | _
          · refine ⟨m, ?_, hm⟩
            unfold syncOneN
            simp only [hpk, hit, hcbv]
            rw [if_neg hr]
            simp
          · refine ⟨(m.add k { item := ni }).1, ?_, ?_⟩
            · unfold syncOneN
              simp only [hpk, hit, hcbv]
              rw [if_neg hr]
              simp
            · exact storeAll_add hm (hcb it ni _ hcbv rfl)
          · refine ⟨m.remove k, ?_, storeAll_remove hm⟩
            unfold syncOneN
            simp only [hpk, hit, hcbv]
            rw [if_neg hr]
            simp
        · refine ⟨(m.add k
              { item := some it, retryCount := w.retryCount + 1, syncError := some e }).1,
            ?_, storeAll_add hm rfl⟩
          unfold syncOneN
          simp only [hpk, hit, hcbv]
          rw [if_neg hr]

theorem syncFoldN_good {Item Err : Type}
    {cb : Item → Option Item × CacheSyncAction × Option Err} {maxR : Int}
    (hcb : ∀ it : Item, ∀ ni : Option Item, ∀ act : CacheSyncAction,
      cb it = (ni, act, none) → act = CacheSyncAction.Update → ni.isSome = true) :
    ∀ (ks : List String) (m : Lru (cacheItemWrapperN Item Err)),
      storeAll (fun w : cacheItemWrapperN Item Err => (w.item).isSome = true) m →
      ∃ m2, List.foldlM (syncOneN cb maxR) m ks = some m2 ∧
        storeAll (fun w : cacheItemWrapperN Item Err => (w.item).isSome = true) m2 := by
  intro ks
  induction ks with
  | nil => exact fun m hm => ⟨m, rfl, hm⟩
  | cons k rest ih =>
    intro m hm
    obtain ⟨m1, he, hm1⟩ := syncOneN_good hcb hm k
    obtain ⟨m2, he2, hm2⟩ := ih m1 hm1
    refine ⟨m2, ?_, hm2⟩
    rw [List.foldlM_cons, he]
    exact he2

/-- C10 amended: both store sites only ever store `cacheItemWrapper` records,
and entries created by `GetOrCreate` hold a non-nil item; however, an
`Update` verdict stores the callback's `newItem` unchecked, so the sync
cycle's `CacheItem` assertion is only panic-free under the assumption that
the callback never returns a nil `newItem` with a nil error and an `Update`
verdict.  Under that assumption, non-nil-ness of all stored items is
preserved by `GetOrCreate` and by sync cycles, and a cycle never hits a
failing assertion. -/
theorem C10_assertions_with_good_callback {Item Err : Type} (ID : Item → String)
    (cb : Item → Option Item × CacheSyncAction × Option Err) (maxR : Int)
    (m : Lru (cacheItemWrapperN Item Err))
    (hcb : ∀ it : Item, ∀ ni : Option Item, ∀ act : CacheSyncAction,
      cb it = (ni, act, none) → act = CacheSyncAction.Update → ni.isSome = true)
    (hm : ∀ p ∈ m.entries, ((p.2).item).isSome = true) :
    (∀ item : Item, ∀ p ∈ (getOrCreateN ID m item).entries, ((p.2).item).isSome = true) ∧
    ∃ m2, syncN cb maxR m = some m2 ∧ ∀ p ∈ m2.entries, ((p.2).item).isSome = true := by
  have hm' : storeAll (fun w : cacheItemWrapperN Item Err => (w.item).isSome = true) m := hm
  constructor
  · intro item
    rcases hpk : m.peek (ID item) with _ | wr
    · have heq : getOrCreateN ID m item = (m.add (ID item) { item := some item }).1 := by
        unfold getOrCreateN
        rw [get_miss hpk]
      rw [heq]
      exact storeAll_add hm' rfl
    · have heq : getOrCreateN ID m item = (m.get (ID item)).2 := by
        unfold getOrCreateN
        rcases hg : m.get (ID item) with ⟨r, m2⟩
        have hr : r = some wr := by
          have h1 : (m.get (ID item)).1 = some wr := by
            rw [get_hit hpk]
          rw [hg] at h1
          exact h1
        subst hr
        rfl
      rw [heq]
      exact storeAll_get_snd hm'
  · exact syncFoldN_good hcb m.keys m hm'

/-- Witness for the amended C10: on the concrete one-entry store, with a
callback whose `Update` verdicts always carry a non-nil item, inserting a
second item preserves non-nil-ness and a full cycle completes without any
assertion failure. -/
theorem C10_witness :
    (∀ p ∈ (getOrCreateN idW storeN1 6).entries, ((p.2).item).isSome = true) ∧
    ∃ m2, syncN cbGoodN 3 storeN1 = some m2 ∧
      ∀ p ∈ m2.entries, ((p.2).item).isSome = true := by
  have h := C10_assertions_with_good_callback idW cbGoodN 3 storeN1
    (by
      intro it ni act h1 h2
      have h3 : (cbGoodN it).1 = ni := congrArg Prod.fst h1
      rw [← h3]
      rfl)
    (by decide)
  exact ⟨h.1 6, h.2⟩

end SyncCache
